import Mathlib

/-!
Verification of the execution core of the Gauche Scheme virtual machine
(`src/vm.c`) and the port-locking macros (`src/gauche/port.h`).

The development contains several shallow embeddings, each at the level of
abstraction the corresponding C code works at:

* `StackModel` — a word-level memory model of continuation frames, the
  forwarding protocol and `save_cont` / `save_stack` (vm.c lines 819-933).
* `CompactModel` — the raw value-stack compaction step of `save_stack`
  (vm.c lines 918-923).
* `Ctl` — a control-level model of dynamic-wind, call/cc, continuation
  reinstatement and the dynamic-handler adjustment
  (vm.c lines 1582-1644 and 1996-2189, plus `user_eval_inner`).
* `Exc` — the exception-raising protocol `Scm_VMThrowException`
  (vm.c lines 1877-1907).
* `Vals` — multiple-value delivery `Scm_VMValues` / `Scm_VMGetResult`
  (vm.c lines 254-264 and 2223-2241).
* `PortLock` — the `PORT_LOCK` / `PORT_UNLOCK` macros (port.h lines 449-474).

Scheme values are represented by natural numbers (the interpreter code under
scrutiny never inspects value contents, only moves them around); `0` doubles
as the distinguished `SCM_UNDEFINED` datum.  C `int` fields that can hold the
forwarding marker −1 are modelled as `Int`.
-/

/-- `SCM_VM_MAX_VALUES`, the size of the auxiliary multiple-value register
array `vals[]`.  The constant lives in `gauche/vm.h`, which is not part of
the two source files; its upstream value in this era of the code base is 20.
None of the theorems below depend on the particular value. -/
def SCM_VM_MAX_VALUES : Nat := 20

/-- The unspecified value `SCM_UNDEFINED`, as a distinguished datum. -/
def SCM_UNDEFINED : Nat := 0

namespace PortLock

/-- The lock state of a port: `lockOwner` is the owning VM (by id) or `none`
(= C `NULL`), `lockCount` the recursion count (a C `int`).
From `port.h`: the whole lock state observable by `PORT_LOCK`/`PORT_UNLOCK`. -/
structure Port where
  lockOwner : Option Nat
  lockCount : Int
deriving DecidableEq, Repr

/-- Result of running one of the locking macros: the new port state, plus
whether the macro acquired the internal fast lock
(`SCM_INTERNAL_FASTLOCK_LOCK`) while doing so. -/
structure LockOutcome where
  port : Port
  usedInternalLock : Bool
deriving DecidableEq, Repr

/-- One iteration of the contended loop body of `PORT_LOCK`
(port.h lines 452-464): under the internal fast lock, read `lockOwner`; if it
is `NULL` or the recorded owner has terminated, install `vm` as owner with
count 1.  `termed` tells whether a VM id is in state `SCM_VM_TERMINATED`. -/
def PORT_LOCK_iter (p : Port) (vm : Nat) (termed : Nat → Bool) : Port :=
  match p.lockOwner with
  | none => { lockOwner := some vm, lockCount := 1 }
  | some o => if termed o then { lockOwner := some vm, lockCount := 1 } else p

/-- `PORT_LOCK` (port.h lines 449-468).  If the calling VM already owns the
port, the recursion count is incremented and the internal fast lock is not
touched.  Otherwise the contended retry loop runs; it always acquires the
internal fast lock.  (The retry loop is modelled by its first iteration; in
the absence of interference from other threads the loop exits right after it
iff that iteration acquired ownership, and further iterations re-run the same
body.) -/
def PORT_LOCK (p : Port) (vm : Nat) (termed : Nat → Bool) : LockOutcome :=
  if p.lockOwner ≠ some vm then
    { port := PORT_LOCK_iter p vm termed, usedInternalLock := true }
  else
    { port := { p with lockCount := p.lockCount + 1 }, usedInternalLock := false }

/-- `PORT_UNLOCK` (port.h lines 471-474): decrement the count; when the
decremented count is ≤ 0, clear the owner slot.  The macro contains no
internal-lock acquisition at all. -/
def PORT_UNLOCK (p : Port) : LockOutcome :=
  let c := p.lockCount - 1
  { port := { lockOwner := if c ≤ 0 then none else p.lockOwner, lockCount := c },
    usedInternalLock := false }

end PortLock

namespace Vals

/-- The value registers of a VM instance: accumulator `val0`, auxiliary
multiple-value slots `vals[]` (modelled as a total map of the array) and
`numVals`. -/
structure VM where
  val0 : Nat
  vals : Nat → Nat
  numVals : Nat

/-- The `SCM_FOR_EACH` loop of `Scm_VMValues` (vm.c lines 2233-2238):
store each remaining argument into `vals[nvals-1]`, raising
"too many values" when the pre-increment counter has reached
`SCM_VM_MAX_VALUES`.  (In C the erroneous store precedes the raise; the
raise discards the mutated state by longjmp.) -/
def valuesLoop (vm : VM) (nvals : Nat) : List Nat → Except String (VM × Nat)
  | [] => Except.ok (vm, nvals)
  | v :: rest =>
    let vm1 : VM := { vm with vals := fun i => if i = nvals - 1 then v else vm.vals i }
    if nvals ≥ SCM_VM_MAX_VALUES then Except.error "too many values: %S"
    else valuesLoop vm1 (nvals + 1) rest

/-- `Scm_VMValues` (vm.c lines 2223-2241).  An empty argument list sets
`numVals` to 0 and returns the unspecified value; otherwise the tail of the
argument list is copied into `vals[]`, `numVals` is set to the argument
count, and the first argument is returned (to be placed in `val0`). -/
def Scm_VMValues (vm : VM) (args : List Nat) : Except String (VM × Nat) :=
  match args with
  | [] => Except.ok ({ vm with numVals := 0 }, SCM_UNDEFINED)
  | a0 :: rest =>
    match valuesLoop vm 1 rest with
    | Except.ok (vm1, nvals) => Except.ok ({ vm1 with numVals := nvals }, a0)
    | Except.error e => Except.error e

/-- `Scm_VMGetResult` (vm.c lines 254-264): the empty list when `numVals` is
0, otherwise `val0` followed by `vals[0] .. vals[numVals-2]`. -/
def Scm_VMGetResult (vm : VM) : List Nat :=
  if vm.numVals = 0 then []
  else vm.val0 :: (List.range (vm.numVals - 1)).map (fun i => vm.vals i)

end Vals

namespace Ctl

/-!
Control-level model of the dynamic-handler machinery.

A dynamic-handler cell is one cons pair `(before . after)` of the
`vm->handlers` list.  `Scm_Memq` compares cells by pointer identity (`eq?`),
so a cell carries an identity tag `id` besides its two thunks; thunks (and
Scheme procedures generally) are opaque values, here `Nat`.

The C code threads work through host ("C") continuations pushed with
`Scm_VMPushCC`: a pushed pair (callback, data) runs when the procedure called
next returns.  The definitions below inline that threading for the
normal-return path, so a C function such as `Scm_VMDynamicWind` together with
its `*_cc` callbacks becomes one sequential Lean function.  The effect of an
arbitrary Scheme procedure call (`Scm_VMApply0`) on the VM registers is an
oracle parameter `beh : Nat → State → State`; the value the procedure
returns is, per the VM return protocol, the `val0` of the state it leaves
behind. -/

/-- One cell of the dynamic-handler list: the cons pair
`(before . after)` with its identity. -/
structure Cell where
  id : Nat
  before : Nat
  after : Nat
deriving DecidableEq, Repr

/-- The control-level registers of the VM: the dynamic-handler list, the
value registers, the (logical) continuation register and the chain of
host-stack records (`ScmCStack`), innermost first, each record by id. -/
structure State where
  handlers : List Cell
  val0 : Nat
  vals : Nat → Nat
  numVals : Nat
  cont : Nat
  cstackChain : List Nat

/-- An escape point as used by call/cc and continuation reinstatement
(fields of `ScmEscapePoint` that `Scm_VMCallCC` initialises and
`throw_continuation` reads; `prev` is NULL there and `ehandler` is #f). -/
structure EP where
  cont : Nat
  handlers : List Cell
  cstack : Option Nat
deriving DecidableEq, Repr

/-- `save_cont` at the control level of abstraction: promoting frames to the
heap preserves the logical continuation referenced by `cont` and touches
neither the handler list nor the value registers.  (That promotion indeed
relocates frames and redirects every holder is proved at the memory level in
`StackModel.save_cont` below; at this level it is the identity.) -/
def save_cont_ctl (s : State) : State := s

/-- `Scm_Memq` (libeval; used by `throw_cont_calculate_handlers`): the suffix
of the list starting at the first cell `eq?` to `c`, or `[]` for `SCM_FALSE`
when `c` does not occur. -/
def Scm_Memq (c : Cell) : List Cell → List Cell
  | [] => []
  | x :: xs => if x = c then x :: xs else Scm_Memq c xs

/-- First loop of `throw_cont_calculate_handlers` (vm.c lines 2010-2015):
walk the current handler list; stop at the first cell that occurs in the
reversed target list; for every cell before that, emit its after-thunk
paired with the rest of the current list beyond the cell. -/
def tchLoop1 (target : List Cell) : List Cell → List (Nat × List Cell)
  | [] => []
  | c :: rest =>
    if (Scm_Memq c target).isEmpty
    then (c.after, rest) :: tchLoop1 target rest
    else []

/-- Second loop of `throw_cont_calculate_handlers` (vm.c lines 2016-2024):
walk the reversed target list; skip cells occurring in the current list; for
each remaining cell emit its before-thunk paired with `SCM_CDR` of
`Scm_Memq cell ep->handlers`, i.e. the suffix of the (unreversed) target
list strictly after the cell. -/
def tchLoop2 (current epHandlers : List Cell) : List Cell → List (Nat × List Cell)
  | [] => []
  | c :: rest =>
    if (Scm_Memq c current).isEmpty
    then (c.before, (Scm_Memq c epHandlers).tail) :: tchLoop2 current epHandlers rest
    else tchLoop2 current epHandlers rest

/-- `throw_cont_calculate_handlers` (vm.c lines 2003-2026): the list of
(thunk, handler-chain) pairs to run before the target continuation `ep` is
installed, given the current handler list. -/
def throw_cont_calculate_handlers (ep : EP) (current : List Cell) :
    List (Nat × List Cell) :=
  tchLoop1 ep.handlers.reverse current ++
    tchLoop2 current ep.handlers ep.handlers.reverse

/-- Result of running the Scheme part of a continuation reinstatement:
final registers, the value returned to the VM loop (or the raised error),
and the thunks invoked on the way, in order. -/
structure ThrowResult where
  state : State
  result : Except String Nat
  calls : List Nat

/-- `throw_cont_body` (vm.c lines 2030-2089), with the `throw_cont_cc`
re-entries (lines 2091-2097) inlined as recursion over the handler-call
list.  While a pending (thunk, chain) pair remains: install `chain` as the
handler list and apply the thunk.  Once none remain: if the target has no
host-stack record (partial continuation) save the current continuation;
install the target `cont` and handler list; then deliver the arguments —
one argument is returned directly, zero arguments yield the unspecified
value, `SCM_VM_MAX_VALUES` or more raise "too many values", and otherwise
arguments 2..N go to `vals[]` with `numVals = N`. -/
def throw_cont_body (beh : Nat → State → State) :
    List (Nat × List Cell) → EP → List Nat → State → ThrowResult
  | (h, chain) :: rest, ep, args, s =>
    let s1 : State := { s with handlers := chain }
    let s2 := beh h s1
    let r := throw_cont_body beh rest ep args s2
    { r with calls := h :: r.calls }
  | [], ep, args, s =>
    let s1 := if ep.cstack = none then save_cont_ctl s else s
    let s2 : State := { s1 with cont := ep.cont, handlers := ep.handlers }
    let nargs := args.length
    if nargs = 1 then { state := s2, result := Except.ok (args.headD 0), calls := [] }
    else if nargs < 1 then
      { state := s2, result := Except.ok SCM_UNDEFINED, calls := [] }
    else if nargs ≥ SCM_VM_MAX_VALUES then
      { state := s2, result := Except.error "too many values passed to the continuation",
        calls := [] }
    else
      { state := { s2 with
                   vals := fun i => if i < nargs - 1 then args.getD (i + 1) 0 else s2.vals i,
                   numVals := nargs },
        result := Except.ok (args.headD 0), calls := [] }

/-- The escape test of `throw_continuation` (vm.c lines 2107-2124): when the
escape point records a host-stack record different from the current one and
that record is found in the current host-stack chain, the VM longjmps to it
(escape reason CONT); otherwise the Scheme part runs on the current host
stack. -/
def throwEscapes (ep : EP) (chain : List Nat) : Bool :=
  match ep.cstack with
  | some ec => if chain.head? ≠ some ec then chain.contains ec else false
  | none => false

/-- Outcome of `throw_continuation`: either a longjmp towards the recorded
host-stack record, or local execution of the Scheme part. -/
inductive ThrowOutcome where
  | longjmp (ep : EP) (args : List Nat)
  | loc (r : ThrowResult)

/-- `throw_continuation` (vm.c lines 2100-2128), the body of the
continuation SUBR. -/
def throw_continuation (beh : Nat → State → State) (ep : EP) (args : List Nat)
    (s : State) : ThrowOutcome :=
  if throwEscapes ep s.cstackChain then ThrowOutcome.longjmp ep args
  else ThrowOutcome.loc
    (throw_cont_body beh (throw_cont_calculate_handlers ep s.handlers) ep args s)

/-- Invocation of a continuation procedure through the VM's SUBR-call
protocol.  Modelled from the spec: the subr-call instruction (in
`vminsn.c`, which is not among the source files) resets `numVals` to 1
before invoking the C body, so that a single-value-producing procedure need
not set it ("Every ordinary single-value-producing instruction resets
`numVals` to 1"). -/
def invoke_continuation (beh : Nat → State → State) (ep : EP) (args : List Nat)
    (s : State) : ThrowOutcome :=
  throw_continuation beh ep args { s with numVals := 1 }

/-- `Scm_VMCallCC` (vm.c lines 2130-2147), capture part: save the stack,
then allocate an escape point recording the continuation register, the
dynamic-handler list and the current host-stack record. -/
def Scm_VMCallCC_ep (s : State) : EP :=
  let s0 := save_cont_ctl s
  { cont := s0.cont, handlers := s0.handlers, cstack := s0.cstackChain.head? }

/-- `Scm_VMDynamicWind` (vm.c lines 1582-1644) with its three host
continuations (`dynwind_before_cc`, `dynwind_body_cc`, `dynwind_after_cc`)
inlined along the normal-return path.  Returns the final state together with
the trace of procedure calls, each paired with the handler list in effect
when it was applied. -/
def Scm_VMDynamicWind (beh : Nat → State → State) (before bodyp after : Nat)
    (s : State) : State × List (Nat × List Cell) :=
  let s1 := beh before s
  let prev := s1.handlers
  let s2 : State := { s1 with handlers := { id := 0, before := before, after := after } :: prev }
  let s3 := beh bodyp s2
  let save0 := s3.val0
  let saveN := s3.numVals
  let saveVals := s3.vals
  let s4 : State := { s3 with handlers := prev }
  let s5 := beh after s4
  let s6 : State := { s5 with
    numVals := saveN,
    vals := fun i => if saveN > 1 ∧ i < saveN - 1 then saveVals i else s5.vals i,
    val0 := save0 }
  (s6, [(before, s.handlers), (bodyp, s2.handlers), (after, s4.handlers)])

/-- `user_eval_inner` after `run_loop` returns normally (vm.c lines
1292-1306): if the continuation register matches the host-stack record's
saved continuation, pop it and return to the host; if it is NULL, a partial
continuation finished, restore and pop; otherwise a ghost continuation tried
to return to host code and an error is raised.  Continuation frames are
identified logically by `Option Nat` (`none` = NULL). -/
inductive LoopReturn where
  | popToHost
  | finishPartial
deriving DecidableEq, Repr

/-- The post-loop dispatch of `user_eval_inner` described above. -/
def user_eval_after_loop (vmCont cstackCont : Option Nat) : Except String LoopReturn :=
  if vmCont = cstackCont then Except.ok LoopReturn.popToHost
  else if vmCont = none then Except.ok LoopReturn.finishPartial
  else Except.error "attempt to return from a ghost continuation."

/-- Projection: the delivered result of a local throw outcome. -/
def ThrowOutcome.resultOf : ThrowOutcome → Option (Except String Nat)
  | ThrowOutcome.loc r => some r.result
  | _ => none

/-- Projection: the thunks called by a local throw outcome. -/
def ThrowOutcome.callsOf : ThrowOutcome → Option (List Nat)
  | ThrowOutcome.loc r => some r.calls
  | _ => none

/-- Projection: the final handler list of a local throw outcome. -/
def ThrowOutcome.handlersOf : ThrowOutcome → Option (List Cell)
  | ThrowOutcome.loc r => some r.state.handlers
  | _ => none

/-- Projection: the final `numVals` of a local throw outcome. -/
def ThrowOutcome.numValsOf : ThrowOutcome → Option Nat
  | ThrowOutcome.loc r => some r.state.numVals
  | _ => none

/-- Projection: the final `vals[i]` of a local throw outcome. -/
def ThrowOutcome.valsAtOf (i : Nat) : ThrowOutcome → Option Nat
  | ThrowOutcome.loc r => some (r.state.vals i)
  | _ => none

/-- Whether the outcome is a longjmp towards another host-stack record. -/
def ThrowOutcome.isLongjmp : ThrowOutcome → Bool
  | ThrowOutcome.longjmp _ _ => true
  | _ => false

/-- The first loop of the adjustment, phrased as the spec phrases it: walk
the current list from the front; stop at the first cell present in the
reversed target list; pair each earlier cell's after-thunk with the current
list truncated past that cell. -/
def specAfterCalls (T : List Cell) : List Cell → List (Nat × List Cell)
  | [] => []
  | c :: rest =>
    if c ∈ T.reverse then [] else (c.after, rest) :: specAfterCalls T rest

/-- The suffix of `l` strictly after the first occurrence of `c`. -/
def suffixAfter (c : Cell) (l : List Cell) : List Cell :=
  (l.dropWhile (fun x => x != c)).tail

/-- The second loop as the code actually behaves (amended claim): for each
cell of the reversed target list not present in the current list, pair its
before-thunk with the suffix of the target list strictly after that cell —
the handler list in force while the before-thunk runs does not yet include
the cell. -/
def specBeforeCalls (C T : List Cell) : List (Nat × List Cell) :=
  (T.reverse.filter (fun c => ! C.contains c)).map
    (fun c => (c.before, suffixAfter c T))

/-- The adjustment as the claim literally states it: the before-thunk of
each entered cell is paired with the handler list "extended to include it",
i.e. with the cell itself at the front of the suffix. -/
def claimedAdjustment (C T : List Cell) : List (Nat × List Cell) :=
  specAfterCalls T C ++
    (T.reverse.filter (fun c => ! C.contains c)).map
      (fun c => (c.before, c :: suffixAfter c T))

end Ctl

namespace Exc

/-- An exception handler slot: the distinguished system default
(`DEFAULT_EXCEPTION_HANDLER`) or a user-installed procedure. -/
inductive XHandler where
  | dflt
  | user (h : Nat)
deriving DecidableEq, Repr

/-- A raised condition: its identity and whether
`SCM_SERIOUS_CONDITION_P` holds for it. -/
structure Condition where
  cid : Nat
  serious : Bool
deriving DecidableEq, Repr

/-- The part of an escape point `Scm_VMThrowException` reads:
the exception handler in force when the escape point was installed. -/
structure EPx where
  xhandler : XHandler
deriving DecidableEq, Repr

/-- The VM state `Scm_VMThrowException` consults and mutates: the current
exception handler and the escape-point chain (innermost first; modelled by
the list of records the `for (; ep; ep = ep->prev)` walk visits). -/
structure VM where
  exceptionHandler : XHandler
  escapePoint : List EPx
deriving DecidableEq, Repr

/-- The externally visible steps `Scm_VMThrowException` performs: applying
a (user) handler to the condition via `Scm_ApplyRec`, raising a fresh error
via `Scm_Error`, or invoking `Scm_VMDefaultExceptionHandler`. -/
inductive ThrowStep where
  | applyHandler (h : Nat) (c : Condition)
  | raiseError (msg : String)
  | invokeDefault (c : Condition)
deriving DecidableEq, Repr

/-- The exact format string `Scm_Error` receives in vm.c line 1891;
`%S` is substituted by the printed offending condition. -/
def nonContinuableMsg : String :=
  "user-defined exception handler returned on non-continuable exception %S"

/-- `Scm_VMThrowException` (vm.c lines 1877-1907), in the case where every
applied handler returns normally: the resulting VM state and the trace of
handler applications / raises / default-handler invocations. -/
def Scm_VMThrowException (vm : VM) (exn : Condition) : VM × List ThrowStep :=
  match vm.exceptionHandler with
  | XHandler.user h =>
    if exn.serious then
      ({ vm with exceptionHandler := XHandler.dflt },
       [ThrowStep.applyHandler h exn, ThrowStep.raiseError nonContinuableMsg])
    else (vm, [ThrowStep.applyHandler h exn])
  | XHandler.dflt =>
    if exn.serious then (vm, [ThrowStep.invokeDefault exn])
    else
      match vm.escapePoint.find? (fun ep => decide (ep.xhandler ≠ XHandler.dflt)) with
      | some ep =>
        match ep.xhandler with
        | XHandler.user h => (vm, [ThrowStep.applyHandler h exn])
        | XHandler.dflt => (vm, [ThrowStep.invokeDefault exn])
      | none => (vm, [ThrowStep.invokeDefault exn])

end Exc

namespace StackModel

/-!
Memory-level model of continuation frames and `save_cont`
(vm.c lines 749-763 and 819-903).

A continuation frame lives either in the value stack (addressed by a `Nat`
slot key) or in the heap (addressed by allocation order).  Of the C
`ScmContFrame` fields the model keeps `prev` (the only continuation
pointer, which doubles as the forwarding pointer) and `size` (whose value
−1 is the forwarding marker, cf. vm.c lines 753-762); the remaining fields
`env`, `argp`, `pc`, `base` and the copied argument words are opaque to the
continuation-chain mechanics and are bundled as `data` (the env field is
itself promoted by `save_env`, a separate pass over the environment chain
that never touches continuation pointers). -/

/-- A (possibly NULL) pointer to a continuation frame. -/
inductive CPtr where
  | null
  | stack (a : Nat)
  | heap (h : Nat)
deriving DecidableEq, Repr

/-- `IN_STACK_P` on a continuation pointer. -/
def isStackB : CPtr → Bool
  | CPtr.stack _ => true
  | _ => false

/-- A continuation frame: `prev` continuation (or forwarding pointer once
`size = -1`), the `size` word, and the opaque remainder of the frame. -/
structure ContFrame where
  prev : CPtr
  size : Int
  data : List Nat
deriving DecidableEq, Repr

/-- The frame store: stack frames as an association list keyed by slot, and
heap frames in allocation order (`SCM_NEW2` = append at the end). -/
structure ContMem where
  stack : List (Nat × ContFrame)
  heap : List ContFrame
deriving DecidableEq, Repr

/-- Read the stack frame at slot `a`. -/
def ContMem.lookupStack (m : ContMem) (a : Nat) : Option ContFrame :=
  (m.stack.find? (fun e => e.1 == a)).map (fun e => e.2)

/-- Overwrite the stack frame at slot `a`. -/
def ContMem.updateStack (m : ContMem) (a : Nat) (f : ContFrame) : ContMem :=
  { m with stack := m.stack.map (fun e => if e.1 = a then (a, f) else e) }

/-- Overwrite the `prev` field of the heap frame at `h`
(the `prev->prev = csave` patch of vm.c line 875). -/
def ContMem.patchHeapPrev (m : ContMem) (h : Nat) (p : CPtr) : ContMem :=
  match m.heap[h]? with
  | some f => { m with heap := m.heap.set h { f with prev := p } }
  | none => m

/-- Dereference a continuation pointer. -/
def ContMem.deref (m : ContMem) : CPtr → Option ContFrame
  | CPtr.null => none
  | CPtr.stack a => m.lookupStack a
  | CPtr.heap h => m.heap[h]?

/-- `FORWARDED_CONT_P` (vm.c line 762): the pointer is non-NULL and the
frame's `size` field is −1. -/
def FORWARDED_CONT_P (m : ContMem) (c : CPtr) : Bool :=
  match c with
  | CPtr.null => false
  | p =>
    match m.deref p with
    | some f => f.size == -1
    | none => false

/-- `FORWARDED_CONT` (vm.c line 763): the relocated frame, read from the
`prev` field. -/
def FORWARDED_CONT (m : ContMem) (c : CPtr) : CPtr :=
  match m.deref c with
  | some f => f.prev
  | none => c

/-- One pointer update of the second pass of `save_cont`
(vm.c lines 884-902): replace a pointer to a forwarded frame by its heap
copy, leave every other pointer alone. -/
def fix_cont_ptr (m : ContMem) (c : CPtr) : CPtr :=
  if FORWARDED_CONT_P m c then FORWARDED_CONT m c else c

/-- The first pass of `save_cont` (vm.c lines 838-882): walk the
continuation chain while it lies in the stack; copy each frame to the heap
(argument words travel with the frame — opaque here), patch the previously
allocated heap copy's `prev` to the fresh copy, then mark the original
forwarded (`prev` := heap copy, `size` := −1) and continue at the original
`prev`.  The do-while loop is driven by structural fuel; `save_cont` below
supplies fuel exceeding any chain the stack can hold. -/
def save_cont_pass1 : Nat → CPtr → Option Nat → ContMem → ContMem
  | 0, _, _, m => m
  | Nat.succ fuel, CPtr.stack a, prevH, m =>
    match m.lookupStack a with
    | none => m
    | some f =>
      let h := m.heap.length
      let m1 : ContMem := { m with heap := m.heap ++ [f] }
      let m2 := match prevH with
                | some ph => m1.patchHeapPrev ph (CPtr.heap h)
                | none => m1
      let m3 := m2.updateStack a { f with prev := CPtr.heap h, size := -1 }
      save_cont_pass1 fuel f.prev (some h) m3
  | Nat.succ _, _, _, m => m

/-- The holders of continuation pointers outside the frames themselves: the
primary `cont` register, the `cont` field of each host-stack record
(`vm->cstack` chain), and the `cont` field of each escape point on the main
chain and on the floating chain.  Each chain is modelled by the list of
`cont` fields its walk in pass 2 visits, in order. -/
structure VMC where
  cont : CPtr
  cstackConts : List CPtr
  epConts : List CPtr
  floatingConts : List CPtr
  mem : ContMem
deriving DecidableEq, Repr

/-- `save_cont` (vm.c lines 825-903): nothing to do when the continuation
register is not in the stack; otherwise run pass 1 from it and then pass 2
over every external holder.  (The `save_env` call on line 834 promotes the
environment chain; it neither reads nor writes continuation pointers and is
outside this model.) -/
def save_cont (vm : VMC) : VMC :=
  match vm.cont with
  | CPtr.stack _ =>
    let m2 := save_cont_pass1 (vm.mem.stack.length + 1) vm.cont none vm.mem
    { cont := fix_cont_ptr m2 vm.cont
      cstackConts := vm.cstackConts.map (fix_cont_ptr m2)
      epConts := vm.epConts.map (fix_cont_ptr m2)
      floatingConts := vm.floatingConts.map (fix_cont_ptr m2)
      mem := m2 }
  | _ => vm

/-- The pointers visited when following `prev` links from `c` for at most
`fuel` steps: the frames reachable from a continuation pointer, plus the
terminating pointer itself. -/
def contTrace (m : ContMem) : Nat → CPtr → List CPtr
  | 0, _ => []
  | Nat.succ fuel, c =>
    match m.deref c with
    | some f => c :: contTrace m fuel f.prev
    | none => [c]

/-- `chainSpecB m c as t`: from pointer `c` the `prev` links run through
exactly the stack slots `as` and then reach `t`, which is not in the stack.
This is the well-formedness of the continuation chain that the C code's
do-while loop presumes. -/
def chainSpecB (m : ContMem) : CPtr → List Nat → CPtr → Bool
  | c, [], t => c == t && ! isStackB t
  | c, a :: as, t =>
    c == CPtr.stack a &&
      (match m.lookupStack a with
       | some f => chainSpecB m f.prev as t
       | none => false)

/-- No stack frame carries the forwarding marker (the invariant holding
whenever the VM is between save operations, vm.c lines 755-757). -/
def stackNoFwdB (m : ContMem) : Bool :=
  m.stack.all (fun e => e.2.size != -1)

/-- Heap frames never point back into the stack (vm.c lines 749-757:
forwarding pointers only appear in the stack, and promoted frames link only
to promoted or null frames). -/
def heapClosedB (m : ContMem) : Bool :=
  m.heap.all (fun f => ! isStackB f.prev)

end StackModel

namespace CompactModel

/-- The registers and value-stack words that the compaction step of
`save_stack` (vm.c lines 918-923) can see.  `words` is the stack buffer
from `stackBase` (index 0) to `stackEnd`; a cell holds a value word
(`some w`) or NULL (`none`).  `argp` and `sp` are offsets from the base. -/
structure WordVM where
  words : List (Option Nat)
  argp : Nat
  sp : Nat
  val0 : Nat
  vals : List Nat
  numVals : Nat
  pc : Nat
  base : Nat
deriving DecidableEq, Repr

/-- The compaction step of `save_stack` (after `save_cont`; vm.c lines
918-923): move the words between `argp` and `sp` to the stack base, reset
`argp` to the base and `sp` past the moved block, and clear every cell from
the new `sp` up to `stackEnd` to NULL.  `save_cont` itself is modelled in
`StackModel`; it writes only continuation/environment frames, which lie
below `argp`, and touches none of the registers carried here. -/
def save_stack (vm : WordVM) : WordVM :=
  let blockLen := vm.sp - vm.argp
  let block := (vm.words.drop vm.argp).take blockLen
  { vm with
    words := block ++ List.replicate (vm.words.length - blockLen) none,
    sp := blockLen,
    argp := 0 }

end CompactModel

namespace StackModel

theorem find?_cons_pos (p : (Nat × ContFrame) → Bool) (x : Nat × ContFrame)
    (l : List (Nat × ContFrame)) (h : p x = true) :
    List.find? p (x :: l) = some x :=
  List.find?_cons_of_pos l h

theorem find?_cons_neg (p : (Nat × ContFrame) → Bool) (x : Nat × ContFrame)
    (l : List (Nat × ContFrame)) (h : p x = false) :
    List.find? p (x :: l) = List.find? p l :=
  List.find?_cons_of_neg l (by simp [h])

theorem find?_map_update_ne (l : List (Nat × ContFrame)) (a b : Nat) (f : ContFrame)
    (h : b ≠ a) :
    (l.map (fun e => if e.1 = a then (a, f) else e)).find? (fun e => e.1 == b) =
      l.find? (fun e => e.1 == b) := by
  induction l with
  | nil => rfl
  | cons e t ih =>
    rw [List.map_cons]
    by_cases he : e.1 = a
    · rw [if_pos he]
      rw [find?_cons_neg (fun e => e.1 == b) (a, f) _
            (by simp; exact fun hh => h hh.symm),
          find?_cons_neg (fun e => e.1 == b) e _
            (by simp [he]; exact fun hh => h hh.symm), ih]
    · rw [if_neg he]
      by_cases hp : e.1 = b
      · rw [find?_cons_pos (fun e => e.1 == b) e _ (by simp [hp]),
            find?_cons_pos (fun e => e.1 == b) e _ (by simp [hp])]
      · rw [find?_cons_neg (fun e => e.1 == b) e _ (by simp [hp]),
            find?_cons_neg (fun e => e.1 == b) e _ (by simp [hp]), ih]

theorem find?_map_update_self (l : List (Nat × ContFrame)) (a : Nat) (f g : ContFrame)
    (h : (l.find? (fun e => e.1 == a)).map (fun e => e.2) = some g) :
    (l.map (fun e => if e.1 = a then (a, f) else e)).find? (fun e => e.1 == a) =
      some (a, f) := by
  induction l with
  | nil => simp [List.find?] at h
  | cons e t ih =>
    rw [List.map_cons]
    by_cases he : e.1 = a
    · rw [if_pos he]
      exact find?_cons_pos (fun e => e.1 == a) (a, f) _ (by simp)
    · rw [if_neg he]
      rw [find?_cons_neg (fun e => e.1 == a) e _ (by simp [he])]
      rw [find?_cons_neg (fun e => e.1 == a) e _ (by simp [he])] at h
      exact ih h

theorem lookupStack_updateStack_self (m : ContMem) (a : Nat) (f g : ContFrame)
    (h : m.lookupStack a = some g) :
    (m.updateStack a f).lookupStack a = some f := by
  unfold ContMem.lookupStack ContMem.updateStack at *
  rw [find?_map_update_self m.stack a f g h]
  rfl

theorem lookupStack_updateStack_ne (m : ContMem) (a b : Nat) (f : ContFrame)
    (h : b ≠ a) :
    (m.updateStack a f).lookupStack b = m.lookupStack b := by
  unfold ContMem.lookupStack ContMem.updateStack
  rw [find?_map_update_ne m.stack a b f h]

theorem updateStack_heap (m : ContMem) (a : Nat) (f : ContFrame) :
    (m.updateStack a f).heap = m.heap := rfl

theorem patchHeapPrev_stack (m : ContMem) (h : Nat) (p : CPtr) :
    (m.patchHeapPrev h p).stack = m.stack := by
  unfold ContMem.patchHeapPrev
  cases m.heap[h]? <;> rfl

theorem lookupStack_congr (m m' : ContMem) (h : m'.stack = m.stack) (a : Nat) :
    m'.lookupStack a = m.lookupStack a := by
  unfold ContMem.lookupStack
  rw [h]

theorem patchHeapPrev_length (m : ContMem) (h : Nat) (p : CPtr) :
    (m.patchHeapPrev h p).heap.length = m.heap.length := by
  unfold ContMem.patchHeapPrev
  cases hm : m.heap[h]? with
  | none => rfl
  | some g => simp

theorem patchHeapPrev_get_self (m : ContMem) (p : Nat) (q : CPtr) (g : ContFrame)
    (h : m.heap[p]? = some g) :
    (m.patchHeapPrev p q).heap[p]? = some { g with prev := q } := by
  unfold ContMem.patchHeapPrev
  rw [h]
  have hlt : p < m.heap.length := by
    rcases List.getElem?_eq_some.mp h with ⟨hl, _⟩
    exact hl
  simp [List.getElem?_set_self hlt]

theorem patchHeapPrev_get_ne (m : ContMem) (p : Nat) (q : CPtr) (r : Nat)
    (h : r ≠ p) :
    (m.patchHeapPrev p q).heap[r]? = m.heap[r]? := by
  unfold ContMem.patchHeapPrev
  cases hm : m.heap[p]? with
  | none => rfl
  | some g => simp [List.getElem?_set_ne (fun hh => h hh.symm)]

theorem chainSpecB_congr (as : List Nat) :
    ∀ (m m' : ContMem) (c t : CPtr),
    (∀ a ∈ as, m'.lookupStack a = m.lookupStack a) →
    chainSpecB m' c as t = chainSpecB m c as t := by
  induction as with
  | nil => intro m m' c t _; rfl
  | cons a rest ih =>
    intro m m' c t h
    rw [chainSpecB, chainSpecB, h a (List.mem_cons_self a rest)]
    cases hf : m.lookupStack a with
    | none => rfl
    | some f =>
      show (c == CPtr.stack a && chainSpecB m' f.prev rest t) =
        (c == CPtr.stack a && chainSpecB m f.prev rest t)
      rw [ih m m' f.prev t (fun b hb => h b (List.mem_cons_of_mem a hb))]

theorem chainSpecB_lookup (as : List Nat) :
    ∀ (m : ContMem) (c t : CPtr), chainSpecB m c as t = true →
    ∀ a ∈ as, ∃ f, m.lookupStack a = some f := by
  induction as with
  | nil => intro m c t _ a ha; simp at ha
  | cons a0 rest ih =>
    intro m c t h b hb
    rw [chainSpecB] at h
    rw [Bool.and_eq_true] at h
    obtain ⟨_, h2⟩ := h
    cases hf : m.lookupStack a0 with
    | none => rw [hf] at h2; simp at h2
    | some f =>
      rw [hf] at h2
      rcases List.mem_cons.mp hb with hb1 | hb1
      · exact ⟨f, hb1 ▸ hf⟩
      · exact ih m f.prev t h2 b hb1

theorem chainSpecB_tail_not_stack (as : List Nat) :
    ∀ (m : ContMem) (c t : CPtr), chainSpecB m c as t = true →
    isStackB t = false := by
  induction as with
  | nil =>
    intro m c t h
    rw [chainSpecB, Bool.and_eq_true] at h
    obtain ⟨_, h2⟩ := h
    simpa using h2
  | cons a rest ih =>
    intro m c t h
    rw [chainSpecB, Bool.and_eq_true] at h
    obtain ⟨_, h2⟩ := h
    cases hf : m.lookupStack a with
    | none => rw [hf] at h2; simp at h2
    | some f => rw [hf] at h2; exact ih m f.prev t h2

theorem chainSpecB_length_le (as : List Nat) (m : ContMem) (c t : CPtr)
    (h : chainSpecB m c as t = true) (hnd : as.Nodup) :
    as.length ≤ m.stack.length := by
  have hsub : as ⊆ m.stack.map Prod.fst := by
    intro a ha
    obtain ⟨f, hf⟩ := chainSpecB_lookup as m c t h a ha
    unfold ContMem.lookupStack at hf
    cases hfind : m.stack.find? (fun e => e.1 == a) with
    | none => rw [hfind] at hf; simp at hf
    | some e =>
      have he : e ∈ m.stack := List.mem_of_find?_eq_some hfind
      have hp : e.1 = a := by
        have h0 := @List.find?_some _ (fun x => x.1 == a) e m.stack hfind
        simpa using h0
      rw [← hp]
      exact List.mem_map_of_mem Prod.fst he
  calc as.length ≤ (m.stack.map Prod.fst).length :=
        (List.subperm_of_subset hnd hsub).length_le
    _ = m.stack.length := List.length_map _ _

/-- Characterization of pass 1 of `save_cont` on a well-formed chain
`as` ending at `t`: the heap grows by one copy per chain frame, the `i`-th
copy carries the original frame's contents with its `prev` patched to the
next copy (or to the chain's tail `t` for the last one), pre-existing heap
entries are untouched except the caller's patch slot `ph`, each chain frame
in the stack is left forwarded to its copy, and every other stack slot is
untouched. -/
theorem save_cont_pass1_spec (as : List Nat) :
    ∀ (m : ContMem) (c t : CPtr) (ph : Option Nat) (fuel : Nat),
    chainSpecB m c as t = true →
    as.Nodup →
    as.length ≤ fuel →
    (∀ p, ph = some p → p < m.heap.length) →
    ((save_cont_pass1 fuel c ph m).heap.length = m.heap.length + as.length) ∧
    (∀ i a f, as[i]? = some a → m.lookupStack a = some f →
       (save_cont_pass1 fuel c ph m).heap[m.heap.length + i]? =
         some { f with prev := if i + 1 < as.length
                               then CPtr.heap (m.heap.length + i + 1) else t }) ∧
    (∀ q, q < m.heap.length → ph ≠ some q →
       (save_cont_pass1 fuel c ph m).heap[q]? = m.heap[q]?) ∧
    (∀ p, ph = some p → as ≠ [] →
       (save_cont_pass1 fuel c ph m).heap[p]? =
         (m.heap[p]?).map (fun g => { g with prev := CPtr.heap m.heap.length })) ∧
    (∀ i a f, as[i]? = some a → m.lookupStack a = some f →
       (save_cont_pass1 fuel c ph m).lookupStack a =
         some { f with prev := CPtr.heap (m.heap.length + i), size := -1 }) ∧
    (∀ b, b ∉ as → (save_cont_pass1 fuel c ph m).lookupStack b = m.lookupStack b) ∧
    (as = [] → save_cont_pass1 fuel c ph m = m) := by
  induction as with
  | nil =>
    intro m c t ph fuel hchain hnd hfuel hph
    have hid : save_cont_pass1 fuel c ph m = m := by
      rw [chainSpecB, Bool.and_eq_true, beq_iff_eq] at hchain
      obtain ⟨hct, hst⟩ := hchain
      subst hct
      cases fuel with
      | zero => rfl
      | succ n =>
        cases c with
        | null => rfl
        | stack a => simp [isStackB] at hst
        | heap hh => rfl
    refine ⟨by rw [hid]; simp, ?_, ?_, ?_, ?_, ?_, fun _ => hid⟩
    · intro i a f hia _
      simp at hia
    · intro q _ _
      rw [hid]
    · intro p _ hne
      exact absurd rfl hne
    · intro i a f hia _
      simp at hia
    · intro b _
      rw [hid]
  | cons a rest ih =>
    intro m c t ph fuel hchain hnd hfuel hph
    rw [chainSpecB, Bool.and_eq_true, beq_iff_eq] at hchain
    obtain ⟨hceq, hrest0⟩ := hchain
    subst hceq
    cases hfc : m.lookupStack a with
    | none =>
      rw [hfc] at hrest0
      simp at hrest0
    | some f =>
      rw [hfc] at hrest0
      have hrest : chainSpecB m f.prev rest t = true := hrest0
      obtain ⟨hnda, hndr⟩ := List.nodup_cons.mp hnd
      cases fuel with
      | zero => simp at hfuel
      | succ fuel =>
        have hfuel2 : rest.length ≤ fuel := by
          rw [List.length_cons] at hfuel
          omega
        have hstep : save_cont_pass1 (fuel + 1) (CPtr.stack a) ph m =
            save_cont_pass1 fuel f.prev (some m.heap.length)
              ((match ph with
                | some p0 =>
                  ContMem.patchHeapPrev { m with heap := m.heap ++ [f] } p0
                    (CPtr.heap m.heap.length)
                | none =>
                  ({ m with heap := m.heap ++ [f] } : ContMem)).updateStack a
                { f with prev := CPtr.heap m.heap.length, size := -1 }) := by
          simp only [save_cont_pass1, hfc]
        rw [hstep]
        set mMid : ContMem := ((match ph with
          | some p0 =>
            ContMem.patchHeapPrev { m with heap := m.heap ++ [f] } p0
              (CPtr.heap m.heap.length)
          | none =>
            ({ m with heap := m.heap ++ [f] } : ContMem)).updateStack a
            { f with prev := CPtr.heap m.heap.length, size := -1 }) with hMd
        have hInnerStack : (match ph with
            | some p0 =>
              ContMem.patchHeapPrev { m with heap := m.heap ++ [f] } p0
                (CPtr.heap m.heap.length)
            | none =>
              ({ m with heap := m.heap ++ [f] } : ContMem)).stack = m.stack := by
          cases ph with
          | none => rfl
          | some p0 => rw [patchHeapPrev_stack]
        have hMidStack : ∀ b, b ≠ a → mMid.lookupStack b = m.lookupStack b := by
          intro b hb
          rw [hMd, lookupStack_updateStack_ne _ a b _ hb]
          exact lookupStack_congr m _ hInnerStack b
        have hMidStackA : mMid.lookupStack a =
            some { f with prev := CPtr.heap m.heap.length, size := -1 } := by
          rw [hMd]
          apply lookupStack_updateStack_self _ a _ f
          rw [lookupStack_congr m _ hInnerStack a]
          exact hfc
        have hMidLen : mMid.heap.length = m.heap.length + 1 := by
          rw [hMd, updateStack_heap]
          cases ph with
          | none => simp
          | some p0 => rw [patchHeapPrev_length]; simp
        have hMidNew : mMid.heap[m.heap.length]? = some f := by
          rw [hMd, updateStack_heap]
          cases ph with
          | none => exact List.getElem?_concat_length m.heap f
          | some p0 =>
            have hp0 : p0 < m.heap.length := hph p0 rfl
            rw [patchHeapPrev_get_ne _ p0 _ m.heap.length (by omega)]
            exact List.getElem?_concat_length m.heap f
        have hMidOld : ∀ q, q < m.heap.length → ph ≠ some q →
            mMid.heap[q]? = m.heap[q]? := by
          intro q hq hne
          rw [hMd, updateStack_heap]
          cases hpc : ph with
          | none => exact List.getElem?_append_left hq
          | some p0 =>
            have hp0q : q ≠ p0 := by
              intro hh
              exact hne (by rw [hpc, hh])
            rw [patchHeapPrev_get_ne _ p0 _ q hp0q]
            exact List.getElem?_append_left hq
        have hMidPatch : ∀ p, ph = some p →
            mMid.heap[p]? =
              (m.heap[p]?).map (fun g => { g with prev := CPtr.heap m.heap.length }) := by
          intro p hp
          subst hp
          rw [hMd, updateStack_heap]
          have hplt : p < m.heap.length := hph p rfl
          have hget : m.heap[p]? = some (m.heap.get ⟨p, hplt⟩) := List.getElem?_eq_getElem hplt
          have happ : ({ m with heap := m.heap ++ [f] } : ContMem).heap[p]? =
              some (m.heap.get ⟨p, hplt⟩) := by
            show (m.heap ++ [f])[p]? = _
            rw [List.getElem?_append_left hplt]
            exact hget
          rw [patchHeapPrev_get_self _ p _ _ happ, hget]
          rfl
        have hchainMid : chainSpecB mMid f.prev rest t = true := by
          rw [chainSpecB_congr rest m mMid f.prev t
            (fun b hb => hMidStack b (fun hba => hnda (hba ▸ hb)))]
          exact hrest
        obtain ⟨ih1, ih2, ih3, ih4, ih5, ih6, ih7⟩ :=
          ih mMid f.prev t (some m.heap.length) fuel hchainMid hndr hfuel2
            (by intro p hp; injection hp with hp; subst hp; rw [hMidLen]; omega)
        refine ⟨?_, ?_, ?_, ?_, ?_, ?_, by intro hcontra; simp at hcontra⟩
        · rw [ih1, hMidLen, List.length_cons]
          omega
        · intro i a' f' hia hfa'
          cases i with
          | zero =>
            rw [List.getElem?_cons_zero] at hia
            injection hia with hia
            subst hia
            rw [hfc] at hfa'
            injection hfa' with hfa'
            subst hfa'
            cases hrc : rest with
            | nil =>
              subst hrc
              rw [ih7 rfl]
              rw [chainSpecB, Bool.and_eq_true, beq_iff_eq] at hrest
              obtain ⟨hpt, _⟩ := hrest
              rw [if_neg (by simp), Nat.add_zero, hMidNew, ← hpt]
            | cons b rest' =>
              rw [if_pos (by simp only [List.length_cons]; omega)]
              have h4 := ih4 m.heap.length rfl (by simp [hrc])
              rw [Nat.add_zero, h4, hMidNew, hMidLen]
              rfl
          | succ i =>
            rw [List.getElem?_cons_succ] at hia
            have ha'rest : a' ∈ rest := List.getElem?_mem hia
            have hne : a' ≠ a := fun hh => hnda (hh ▸ ha'rest)
            have h2 := ih2 i a' f' hia (by rw [hMidStack a' hne]; exact hfa')
            have hidx : m.heap.length + (i + 1) = m.heap.length + 1 + i := by omega
            rw [hidx, ← hMidLen, h2]
            by_cases hc : i + 1 < rest.length
            · rw [if_pos hc, if_pos (by rw [List.length_cons]; omega), hMidLen]
            · rw [if_neg hc, if_neg (by rw [List.length_cons]; omega)]
        · intro q hq hne
          have h3 := ih3 q (by rw [hMidLen]; omega)
            (by intro hcontra; injection hcontra with hcontra; omega)
          rw [h3]
          exact hMidOld q hq hne
        · intro p hp _
          have hplt : p < m.heap.length := hph p hp
          have h3 := ih3 p (by rw [hMidLen]; omega)
            (by intro hcontra; injection hcontra with hcontra; omega)
          rw [h3]
          exact hMidPatch p hp
        · intro i a' f' hia hfa'
          cases i with
          | zero =>
            rw [List.getElem?_cons_zero] at hia
            injection hia with hia
            subst hia
            rw [hfc] at hfa'
            injection hfa' with hfa'
            subst hfa'
            rw [ih6 a hnda, Nat.add_zero]
            exact hMidStackA
          | succ i =>
            rw [List.getElem?_cons_succ] at hia
            have ha'rest : a' ∈ rest := List.getElem?_mem hia
            have hne : a' ≠ a := fun hh => hnda (hh ▸ ha'rest)
            have h5 := ih5 i a' f' hia (by rw [hMidStack a' hne]; exact hfa')
            rw [h5, hMidLen]
            have heq3 : m.heap.length + 1 + i = m.heap.length + (i + 1) := by omega
            rw [heq3]
        · intro b hb
          have hbr : b ∉ rest := fun hh => hb (List.mem_cons_of_mem a hh)
          have hba : b ≠ a := fun hh => hb (hh ▸ List.mem_cons_self a rest)
          rw [ih6 b hbr]
          exact hMidStack b hba

theorem contTrace_no_stack (m : ContMem) (hclosed : heapClosedB m = true) :
    ∀ (fuel : Nat) (p : CPtr), isStackB p = false →
    ∀ q ∈ contTrace m fuel p, isStackB q = false := by
  intro fuel
  induction fuel with
  | zero => intro p hp q hq; simp [contTrace] at hq
  | succ n ih =>
    intro p hp q hq
    cases p with
    | null =>
      simp [contTrace, ContMem.deref] at hq
      exact hq ▸ hp
    | stack a => simp [isStackB] at hp
    | heap hh =>
      cases hm : m.heap[hh]? with
      | none =>
        simp [contTrace, ContMem.deref, hm] at hq
        exact hq ▸ hp
      | some f =>
        simp only [contTrace, ContMem.deref, hm, List.mem_cons] at hq
        rcases hq with h | h
        · exact h ▸ hp
        · have hf : f ∈ m.heap := List.getElem?_mem hm
          have hprev : isStackB f.prev = false := by
            have := (List.all_eq_true.mp hclosed) f hf
            simpa using this
          exact ih f.prev hprev q h

/-- Pass 1 preserves heap closure: every heap frame of the result, old or
newly copied, has a non-stack `prev`. -/
theorem pass1_heapClosed (as : List Nat) (m : ContMem) (c t : CPtr) (fuel : Nat)
    (hchain : chainSpecB m c as t = true) (hnd : as.Nodup) (hfuel : as.length ≤ fuel)
    (hclosed : heapClosedB m = true) :
    heapClosedB (save_cont_pass1 fuel c none m) = true := by
  obtain ⟨h1, h2, h3, _, _, _, _⟩ :=
    save_cont_pass1_spec as m c t none fuel hchain hnd hfuel (by simp)
  rw [heapClosedB, List.all_eq_true]
  intro g hg
  obtain ⟨j, hj⟩ := List.mem_iff_getElem?.mp hg
  by_cases hjl : j < m.heap.length
  · rw [h3 j hjl (by simp)] at hj
    have hgm : g ∈ m.heap := List.getElem?_mem hj
    exact (List.all_eq_true.mp hclosed) g hgm
  · have hjlen : j < (save_cont_pass1 fuel c none m).heap.length := by
      rcases List.getElem?_eq_some.mp hj with ⟨hh, _⟩
      exact hh
    rw [h1] at hjlen
    obtain ⟨i, hji, hilen⟩ :
        ∃ i, j = m.heap.length + i ∧ i < as.length := ⟨j - m.heap.length, by omega, by omega⟩
    obtain ⟨a, ha⟩ : ∃ a, as[i]? = some a :=
      ⟨as.get ⟨i, hilen⟩, List.getElem?_eq_getElem hilen⟩
    obtain ⟨f, hf⟩ := chainSpecB_lookup as m c t hchain a (List.getElem?_mem ha)
    have hcopy := h2 i a f ha hf
    rw [hji, hcopy] at hj
    injection hj with hj
    subst hj
    by_cases hcnd : i + 1 < as.length
    · simp only [Bool.not_eq_true']
      rw [if_pos hcnd]
      rfl
    · have htns : isStackB t = false := chainSpecB_tail_not_stack as m c t hchain
      simp only [Bool.not_eq_true']
      rw [if_neg hcnd]
      exact htns

end StackModel

namespace Ctl

theorem Scm_Memq_eq_dropWhile (c : Cell) (l : List Cell) :
    Scm_Memq c l = l.dropWhile (fun x => x != c) := by
  induction l with
  | nil => rfl
  | cons x xs ih =>
    simp only [Scm_Memq, List.dropWhile]
    by_cases h : x = c
    · have hb : (x != c) = false := by simp [h]
      rw [if_pos h, hb]
    · have hb : (x != c) = true := by simp [h]
      rw [if_neg h, hb, ih]

theorem Scm_Memq_isEmpty (c : Cell) (l : List Cell) :
    (Scm_Memq c l).isEmpty = true ↔ c ∉ l := by
  induction l with
  | nil => simp [Scm_Memq]
  | cons x xs ih =>
    simp only [Scm_Memq]
    by_cases h : x = c
    · rw [if_pos h]
      subst h
      simp
    · rw [if_neg h, ih]
      constructor
      · intro hn hmem
        rcases List.mem_cons.mp hmem with h1 | h1
        · exact h h1.symm
        · exact hn h1
      · intro hn hmem
        exact hn (List.mem_cons_of_mem x hmem)

theorem tchLoop2_of_all_mem (current epHandlers : List Cell) (walk : List Cell)
    (h : ∀ c ∈ walk, c ∈ current) :
    tchLoop2 current epHandlers walk = [] := by
  induction walk with
  | nil => rfl
  | cons c rest ih =>
    have hc : c ∈ current := h c (List.mem_cons_self c rest)
    have hne : ¬ (Scm_Memq c current).isEmpty = true := by
      rw [Scm_Memq_isEmpty]; exact fun hn => hn hc
    simp only [tchLoop2]
    rw [if_neg hne]
    exact ih (fun x hx => h x (List.mem_cons_of_mem c hx))

theorem calculate_handlers_self (ep : EP)
    (current : List Cell) (hh : ep.handlers = current) :
    throw_cont_calculate_handlers ep current = [] := by
  unfold throw_cont_calculate_handlers
  subst hh
  have h2 : tchLoop2 ep.handlers ep.handlers ep.handlers.reverse = [] :=
    tchLoop2_of_all_mem _ _ _ (fun c hc => List.mem_reverse.mp hc)
  rw [h2]
  cases hcur : ep.handlers with
  | nil => rfl
  | cons c rest =>
    have hmem : c ∈ (c :: rest).reverse := by
      rw [List.mem_reverse]; exact List.mem_cons_self c rest
    have hne : ¬ (Scm_Memq c (c :: rest).reverse).isEmpty = true := by
      rw [Scm_Memq_isEmpty]; exact fun hn => hn hmem
    simp only [tchLoop1, List.append_nil]
    rw [if_neg hne]

theorem tchLoop1_eq_spec (T : List Cell) (cur : List Cell) :
    tchLoop1 T.reverse cur = specAfterCalls T cur := by
  induction cur with
  | nil => rfl
  | cons c rest ih =>
    simp only [tchLoop1, specAfterCalls]
    by_cases h : c ∈ T.reverse
    · have hne : ¬ (Scm_Memq c T.reverse).isEmpty = true := by
        rw [Scm_Memq_isEmpty]; exact fun hn => hn h
      rw [if_neg hne, if_pos h]
    · have he : (Scm_Memq c T.reverse).isEmpty = true := (Scm_Memq_isEmpty c _).mpr h
      rw [if_pos he, if_neg h, ih]

theorem tchLoop2_eq_spec (C T : List Cell) (walk : List Cell) :
    tchLoop2 C T walk =
      (walk.filter (fun c => ! C.contains c)).map
        (fun c => (c.before, suffixAfter c T)) := by
  induction walk with
  | nil => rfl
  | cons c rest ih =>
    simp only [tchLoop2, List.filter]
    by_cases h : c ∈ C
    · have hne : ¬ (Scm_Memq c C).isEmpty = true := by
        rw [Scm_Memq_isEmpty]; exact fun hn => hn h
      have hcont : C.contains c = true := List.elem_eq_true_of_mem h
      rw [if_neg hne, hcont]
      simpa using ih
    · have he : (Scm_Memq c C).isEmpty = true := (Scm_Memq_isEmpty c _).mpr h
      have hcont : C.contains c = false := by
        rw [← Bool.not_eq_true]
        exact fun hc => h (List.mem_of_elem_eq_true hc)
      rw [if_pos he, hcont]
      simp only [Bool.not_false, List.map]
      rw [Scm_Memq_eq_dropWhile]
      exact congrArg _ ih

end Ctl

/-- C2: `Scm_VMDynamicWind` calls `before` first; when `before` returns it
prepends the (before, after) pair to the dynamic-handler list and calls
`body`; when `body` returns it restores the prior handler list and calls
`after`; and the values `body` produced (`val0`, `vals[]`, `numVals`) are
the values of the whole form, preserved across `after`'s execution. -/
theorem c2_dynamic_wind (beh : Nat → Ctl.State → Ctl.State) (before bodyp after : Nat)
    (s : Ctl.State) :
    (Ctl.Scm_VMDynamicWind beh before bodyp after s).2 =
      [(before, s.handlers),
       (bodyp, { id := 0, before := before, after := after } :: (beh before s).handlers),
       (after, (beh before s).handlers)] ∧
    (Ctl.Scm_VMDynamicWind beh before bodyp after s).1.val0 =
      (beh bodyp { beh before s with
         handlers :=
           { id := 0, before := before, after := after } :: (beh before s).handlers }).val0 ∧
    (Ctl.Scm_VMDynamicWind beh before bodyp after s).1.numVals =
      (beh bodyp { beh before s with
         handlers :=
           { id := 0, before := before, after := after } :: (beh before s).handlers }).numVals ∧
    (∀ i, i + 1 <
        (beh bodyp { beh before s with
           handlers :=
             { id := 0, before := before, after := after } :: (beh before s).handlers }).numVals →
      (Ctl.Scm_VMDynamicWind beh before bodyp after s).1.vals i =
        (beh bodyp { beh before s with
           handlers :=
             { id := 0, before := before, after := after } :: (beh before s).handlers }).vals i) := by
  refine ⟨rfl, rfl, rfl, ?_⟩
  intro i hi
  show (if (beh bodyp { beh before s with
          handlers :=
            { id := 0, before := before, after := after } ::
              (beh before s).handlers }).numVals > 1 ∧
        i < (beh bodyp { beh before s with
          handlers :=
            { id := 0, before := before, after := after } ::
              (beh before s).handlers }).numVals - 1
       then _ else _) = _
  rw [if_pos ⟨by omega, by omega⟩]

/-- Witness for `c2_dynamic_wind`: concrete procedures with the identity
behavior; the trace is before, body (with the pair prepended), after (with
the prior list restored). -/
theorem c2_dynamic_wind_witness :
    (Ctl.Scm_VMDynamicWind (fun _ st => st) 1 2 3
        { handlers := [], val0 := 0, vals := fun _ => 0, numVals := 1,
          cont := 0, cstackChain := [] }).2 =
      [(1, []), (2, [{ id := 0, before := 1, after := 3 }]), (3, [])] :=
  (c2_dynamic_wind (fun _ st => st) 1 2 3
    { handlers := [], val0 := 0, vals := fun _ => 0, numVals := 1,
      cont := 0, cstackChain := [] }).1

/-- C4 counterexample: with current handler list `C = []` and target list
`T = [c]`, the code pairs `c`'s before-thunk with the empty handler list
(the suffix of `T` after `c`), not with the list "extended to include"
`c` as the claim states. -/
theorem c4_counterexample :
    Ctl.throw_cont_calculate_handlers
        { cont := 0, handlers := [{ id := 1, before := 2, after := 3 }], cstack := none }
        [] ≠
      Ctl.claimedAdjustment [] [{ id := 1, before := 2, after := 3 }] := by
  decide

/-- C4 (amended): the adjustment emits, first, for each cell of the current
list `C` taken from the front up to the first cell present in reverse(T),
a call of its after-thunk paired with `C` truncated past that cell; then,
for each cell of reverse(T) not present in `C`, a call of its before-thunk
paired with the suffix of `T` strictly after that cell (the handler list in
force while a before-thunk runs does not yet include its cell; the cell is
included only from the next call on). -/
theorem c4_amended_adjustment (ep : Ctl.EP) (cur : List Ctl.Cell) :
    Ctl.throw_cont_calculate_handlers ep cur =
      Ctl.specAfterCalls ep.handlers cur ++ Ctl.specBeforeCalls cur ep.handlers := by
  unfold Ctl.throw_cont_calculate_handlers Ctl.specBeforeCalls
  rw [Ctl.tchLoop1_eq_spec, Ctl.tchLoop2_eq_spec]

/-- C5: capturing a continuation with `Scm_VMCallCC` and immediately
invoking it with the single argument `V` yields `V` as the result, with the
dynamic-handler list unchanged and no before- or after-thunk run (and no
longjmp, the host-stack record being the current one). -/
theorem c5_callcc_immediate_invoke (beh : Nat → Ctl.State → Ctl.State)
    (s : Ctl.State) (V : Nat) :
    Ctl.ThrowOutcome.isLongjmp
        (Ctl.invoke_continuation beh (Ctl.Scm_VMCallCC_ep s) [V] s) = false ∧
    Ctl.ThrowOutcome.resultOf
        (Ctl.invoke_continuation beh (Ctl.Scm_VMCallCC_ep s) [V] s) =
      some (Except.ok V) ∧
    Ctl.ThrowOutcome.handlersOf
        (Ctl.invoke_continuation beh (Ctl.Scm_VMCallCC_ep s) [V] s) =
      some s.handlers ∧
    Ctl.ThrowOutcome.callsOf
        (Ctl.invoke_continuation beh (Ctl.Scm_VMCallCC_ep s) [V] s) =
      some [] := by
  have hesc : Ctl.throwEscapes (Ctl.Scm_VMCallCC_ep s) s.cstackChain = false := by
    unfold Ctl.Scm_VMCallCC_ep Ctl.throwEscapes Ctl.save_cont_ctl
    cases h : s.cstackChain.head? with
    | none => simp [h]
    | some ec => simp [h]
  have hcalc : Ctl.throw_cont_calculate_handlers (Ctl.Scm_VMCallCC_ep s) s.handlers = [] :=
    Ctl.calculate_handlers_self _ _ rfl
  unfold Ctl.invoke_continuation Ctl.throw_continuation
  have hchain : ({ s with numVals := 1 } : Ctl.State).cstackChain = s.cstackChain := rfl
  have hhand : ({ s with numVals := 1 } : Ctl.State).handlers = s.handlers := rfl
  rw [hchain, hhand, hesc, hcalc]
  simp only [Bool.false_eq_true, if_false]
  unfold Ctl.throw_cont_body
  cases hcs : (Ctl.Scm_VMCallCC_ep s).cstack with
  | none =>
    simp [Ctl.save_cont_ctl, Ctl.ThrowOutcome.isLongjmp, Ctl.ThrowOutcome.resultOf,
      Ctl.ThrowOutcome.handlersOf, Ctl.ThrowOutcome.callsOf, Ctl.Scm_VMCallCC_ep]
  | some ec =>
    simp [Ctl.save_cont_ctl, Ctl.ThrowOutcome.isLongjmp, Ctl.ThrowOutcome.resultOf,
      Ctl.ThrowOutcome.handlersOf, Ctl.ThrowOutcome.callsOf, Ctl.Scm_VMCallCC_ep]

/-- C6: invoking a continuation whose recorded host-stack record is
non-null but absent from the current host-stack chain (a ghost
continuation) runs the Scheme part locally, without a longjmp; and when the
interpreter loop then finishes with a continuation register matching
neither the current record's saved continuation nor NULL,
`user_eval_inner` raises "attempt to return from a ghost continuation." -/
theorem c6_ghost_continuation (beh : Nat → Ctl.State → Ctl.State) (ep : Ctl.EP)
    (args : List Nat) (s : Ctl.State) (ec : Nat)
    (h1 : ep.cstack = some ec) (h2 : ec ∉ s.cstackChain)
    (vmCont cstackCont : Option Nat) (h3 : vmCont ≠ cstackCont) (h4 : vmCont ≠ none) :
    Ctl.ThrowOutcome.isLongjmp (Ctl.throw_continuation beh ep args s) = false ∧
    Ctl.user_eval_after_loop vmCont cstackCont =
      Except.error "attempt to return from a ghost continuation." := by
  constructor
  · have hesc : Ctl.throwEscapes ep s.cstackChain = false := by
      unfold Ctl.throwEscapes
      rw [h1]
      have hcont : s.cstackChain.contains ec = false := by
        rw [← Bool.not_eq_true]
        intro hc
        exact h2 (List.mem_of_elem_eq_true hc)
      by_cases hh : s.cstackChain.head? = some ec
      · exact absurd (List.mem_of_mem_head? (Option.mem_def.mpr hh)) h2
      · show (if s.cstackChain.head? ≠ some ec then s.cstackChain.contains ec
              else false) = false
        rw [if_pos hh]
        exact hcont
    simp [Ctl.throw_continuation, hesc, Ctl.ThrowOutcome.isLongjmp]
  · unfold Ctl.user_eval_after_loop
    rw [if_neg h3, if_neg h4]

/-- Witness for `c6_ghost_continuation` at concrete inputs. -/
theorem c6_ghost_continuation_witness :
    (({ cont := 0, handlers := [], cstack := some 5 } : Ctl.EP).cstack = some 5) ∧
    (5 ∉ [1, 2]) ∧ (some 7 ≠ some 3) ∧ ((some 7 : Option Nat) ≠ none) ∧
    (Ctl.ThrowOutcome.isLongjmp
        (Ctl.throw_continuation (fun _ st => st)
          { cont := 0, handlers := [], cstack := some 5 } []
          { handlers := [], val0 := 0, vals := fun _ => 0, numVals := 1,
            cont := 9, cstackChain := [1, 2] }) = false ∧
     Ctl.user_eval_after_loop (some 7) (some 3) =
       Except.error "attempt to return from a ghost continuation.") :=
  ⟨rfl, by decide, by decide, by decide,
   c6_ghost_continuation (fun _ st => st)
     { cont := 0, handlers := [], cstack := some 5 } []
     { handlers := [], val0 := 0, vals := fun _ => 0, numVals := 1,
       cont := 9, cstackChain := [1, 2] } 5 rfl (by decide)
     (some 7) (some 3) (by decide) (by decide)⟩

/-- C8 counterexample: with `N = SCM_VM_MAX_VALUES` (the number of values
`Scm_VMValues` itself can deliver: the first conjunct shows `values` with
that many arguments succeeds with `numVals = 20`, so 20 values do not
exceed the interface's multi-value cap), invoking a continuation under the
same host-stack record with those 20 arguments raises "too many values"
instead of delivering them — the code rejects `N` equal to the cap, not
only `N` exceeding it. -/
theorem c8_counterexample :
    ((Vals.Scm_VMValues { val0 := 0, vals := fun _ => 0, numVals := 1 }
        (List.range SCM_VM_MAX_VALUES)).toOption.map (fun x => x.1.numVals)) =
      some SCM_VM_MAX_VALUES ∧
    Ctl.ThrowOutcome.resultOf
        (Ctl.invoke_continuation (fun _ st => st)
          { cont := 0, handlers := [], cstack := some 4 }
          (List.range SCM_VM_MAX_VALUES)
          { handlers := [], val0 := 0, vals := fun _ => 0, numVals := 1,
            cont := 9, cstackChain := [4] }) =
      some (Except.error "too many values passed to the continuation") := by
  constructor
  · decide
  · rfl

/-- C8 (amended): invoking a captured continuation with `N` arguments under
the same host-stack record, once no handler adjustment remains, raises
"too many values" when `N ≥ SCM_VM_MAX_VALUES` (so invoking with exactly
the cap errors, one value fewer than `Scm_VMValues` supports) and delivers
no values then; for `N < SCM_VM_MAX_VALUES` the first argument becomes the
result (`val0`), arguments 2..N go to `vals[]`, and `numVals` is `N` for
`N ≥ 2` and 1 for `N ≤ 1` via the subr-call protocol — `N = 0` delivering
the unspecified value. -/
theorem c8_amended_value_delivery (beh : Nat → Ctl.State → Ctl.State) (ep : Ctl.EP)
    (args : List Nat) (s : Ctl.State)
    (hcs : ep.cstack = s.cstackChain.head?) (hh : ep.handlers = s.handlers) :
    Ctl.ThrowOutcome.isLongjmp (Ctl.invoke_continuation beh ep args s) = false ∧
    Ctl.ThrowOutcome.callsOf (Ctl.invoke_continuation beh ep args s) = some [] ∧
    (args.length ≥ SCM_VM_MAX_VALUES →
       Ctl.ThrowOutcome.resultOf (Ctl.invoke_continuation beh ep args s) =
         some (Except.error "too many values passed to the continuation") ∧
       Ctl.ThrowOutcome.numValsOf (Ctl.invoke_continuation beh ep args s) = some 1 ∧
       (∀ i, Ctl.ThrowOutcome.valsAtOf i (Ctl.invoke_continuation beh ep args s) =
          some (s.vals i))) ∧
    (2 ≤ args.length → args.length < SCM_VM_MAX_VALUES →
       Ctl.ThrowOutcome.resultOf (Ctl.invoke_continuation beh ep args s) =
         some (Except.ok (args.headD 0)) ∧
       Ctl.ThrowOutcome.numValsOf (Ctl.invoke_continuation beh ep args s) =
         some args.length ∧
       (∀ i, i < args.length - 1 →
          Ctl.ThrowOutcome.valsAtOf i (Ctl.invoke_continuation beh ep args s) =
            some (args.getD (i + 1) 0))) ∧
    (args.length = 1 →
       Ctl.ThrowOutcome.resultOf (Ctl.invoke_continuation beh ep args s) =
         some (Except.ok (args.headD 0)) ∧
       Ctl.ThrowOutcome.numValsOf (Ctl.invoke_continuation beh ep args s) = some 1) ∧
    (args.length = 0 →
       Ctl.ThrowOutcome.resultOf (Ctl.invoke_continuation beh ep args s) =
         some (Except.ok SCM_UNDEFINED) ∧
       Ctl.ThrowOutcome.numValsOf (Ctl.invoke_continuation beh ep args s) = some 1) := by
  have hM : SCM_VM_MAX_VALUES = 20 := rfl
  have hesc : Ctl.throwEscapes ep s.cstackChain = false := by
    unfold Ctl.throwEscapes
    rw [hcs]
    cases h : s.cstackChain.head? with
    | none => simp
    | some ec => simp
  have hred : Ctl.invoke_continuation beh ep args s =
      Ctl.ThrowOutcome.loc
        (Ctl.throw_cont_body beh [] ep args { s with numVals := 1 }) := by
    unfold Ctl.invoke_continuation Ctl.throw_continuation
    have h1 : ({ s with numVals := 1 } : Ctl.State).cstackChain = s.cstackChain := rfl
    have h2 : ({ s with numVals := 1 } : Ctl.State).handlers = s.handlers := rfl
    rw [h1, h2, hesc, Ctl.calculate_handlers_self ep s.handlers hh]
    simp
  rw [hred]
  have hbody : Ctl.throw_cont_body beh [] ep args { s with numVals := 1 } =
      (let s2 : Ctl.State :=
        { ({ s with numVals := 1 } : Ctl.State) with
          cont := ep.cont, handlers := ep.handlers }
       let nargs := args.length
       if nargs = 1 then
         { state := s2, result := Except.ok (args.headD 0), calls := [] }
       else if nargs < 1 then
         { state := s2, result := Except.ok SCM_UNDEFINED, calls := [] }
       else if nargs ≥ SCM_VM_MAX_VALUES then
         { state := s2,
           result := Except.error "too many values passed to the continuation",
           calls := [] }
       else
         { state := { s2 with
             vals := fun i => if i < nargs - 1 then args.getD (i + 1) 0 else s2.vals i,
             numVals := nargs },
           result := Except.ok (args.headD 0), calls := [] }) := by
    unfold Ctl.throw_cont_body
    simp only [Ctl.save_cont_ctl, ite_self]
  rw [hbody]
  simp only []
  refine ⟨?_, ?_, ?_, ?_, ?_, ?_⟩
  · split <;> rfl
  · split
    · rfl
    · split
      · rfl
      · split <;> rfl
  · intro hn
    rw [if_neg (by omega), if_neg (by omega), if_pos hn]
    exact ⟨rfl, rfl, fun i => rfl⟩
  · intro hn2 hnm
    rw [if_neg (by omega), if_neg (by omega), if_neg (by omega)]
    refine ⟨rfl, rfl, ?_⟩
    intro i hi
    show some (if i < args.length - 1 then args.getD (i + 1) 0 else _) = _
    rw [if_pos hi]
  · intro hn1
    rw [if_pos hn1]
    exact ⟨rfl, rfl⟩
  · intro hn0
    rw [if_neg (by omega), if_pos (by omega)]
    exact ⟨rfl, rfl⟩

/-- Witness for `c8_amended_value_delivery` at concrete inputs, selecting
the two-argument delivery consequences. -/
theorem c8_amended_value_delivery_witness :
    (({ cont := 0, handlers := [], cstack := none } : Ctl.EP).cstack =
       ([] : List Nat).head?) ∧
    (({ cont := 0, handlers := [], cstack := none } : Ctl.EP).handlers = []) ∧
    (Ctl.ThrowOutcome.resultOf
        (Ctl.invoke_continuation (fun _ st => st)
          { cont := 0, handlers := [], cstack := none } [4, 5]
          { handlers := [], val0 := 0, vals := fun _ => 0, numVals := 1,
            cont := 9, cstackChain := [] }) =
       some (Except.ok ([4, 5].headD 0)) ∧
     Ctl.ThrowOutcome.numValsOf
        (Ctl.invoke_continuation (fun _ st => st)
          { cont := 0, handlers := [], cstack := none } [4, 5]
          { handlers := [], val0 := 0, vals := fun _ => 0, numVals := 1,
            cont := 9, cstackChain := [] }) =
       some ([4, 5] : List Nat).length ∧
     (∀ i, i < ([4, 5] : List Nat).length - 1 →
        Ctl.ThrowOutcome.valsAtOf i
            (Ctl.invoke_continuation (fun _ st => st)
              { cont := 0, handlers := [], cstack := none } [4, 5]
              { handlers := [], val0 := 0, vals := fun _ => 0, numVals := 1,
                cont := 9, cstackChain := [] }) =
          some ([4, 5].getD (i + 1) 0))) :=
  ⟨rfl, rfl,
   (c8_amended_value_delivery (fun _ st => st)
      { cont := 0, handlers := [], cstack := none } [4, 5]
      { handlers := [], val0 := 0, vals := fun _ => 0, numVals := 1,
        cont := 9, cstackChain := [] } rfl rfl).2.2.2.1 (by decide) (by decide)⟩

/-- C3: if the current exception handler is user-installed,
`Scm_VMThrowException` applies it to the condition, and for a serious
condition additionally resets the handler to the default and raises a
fresh error with the non-continuable message; with the default handler, a
non-serious condition is offered to the first user exception handler found
on the escape-point chain, and otherwise (no such handler, or a serious
condition) the default error handler is invoked.  The raised message is
the claimed text followed by the printed condition (`%S`). -/
theorem c3_throw_exception (vm : Exc.VM) (exn : Exc.Condition) :
    (∀ h, vm.exceptionHandler = Exc.XHandler.user h →
       (exn.serious = true →
          Exc.Scm_VMThrowException vm exn =
            ({ vm with exceptionHandler := Exc.XHandler.dflt },
             [Exc.ThrowStep.applyHandler h exn,
              Exc.ThrowStep.raiseError Exc.nonContinuableMsg])) ∧
       (exn.serious = false →
          Exc.Scm_VMThrowException vm exn =
            (vm, [Exc.ThrowStep.applyHandler h exn]))) ∧
    (vm.exceptionHandler = Exc.XHandler.dflt → exn.serious = false →
       (∀ ep hh,
          vm.escapePoint.find?
              (fun e => decide (e.xhandler ≠ Exc.XHandler.dflt)) = some ep →
          ep.xhandler = Exc.XHandler.user hh →
          Exc.Scm_VMThrowException vm exn =
            (vm, [Exc.ThrowStep.applyHandler hh exn])) ∧
       (vm.escapePoint.find?
            (fun e => decide (e.xhandler ≠ Exc.XHandler.dflt)) = none →
          Exc.Scm_VMThrowException vm exn =
            (vm, [Exc.ThrowStep.invokeDefault exn]))) ∧
    (vm.exceptionHandler = Exc.XHandler.dflt → exn.serious = true →
       Exc.Scm_VMThrowException vm exn = (vm, [Exc.ThrowStep.invokeDefault exn])) ∧
    Exc.nonContinuableMsg =
      "user-defined exception handler returned on non-continuable exception" ++ " %S" := by
  refine ⟨?_, ?_, ?_, rfl⟩
  · intro h hu
    constructor
    · intro hs
      unfold Exc.Scm_VMThrowException
      rw [hu, hs]
      simp
    · intro hs
      unfold Exc.Scm_VMThrowException
      rw [hu, hs]
      simp
  · intro hd hs
    constructor
    · intro ep hh hfind hxh
      unfold Exc.Scm_VMThrowException
      rw [hd, hs, hfind]
      simp [hxh]
    · intro hfind
      unfold Exc.Scm_VMThrowException
      rw [hd, hs, hfind]
      simp
  · intro hd hs
    unfold Exc.Scm_VMThrowException
    rw [hd, hs]
    simp

/-- Witness for `c3_throw_exception`: a serious condition raised while a
user handler is installed. -/
theorem c3_throw_exception_witness :
    (({ exceptionHandler := Exc.XHandler.user 3, escapePoint := [] } : Exc.VM).exceptionHandler =
       Exc.XHandler.user 3) ∧
    (({ cid := 7, serious := true } : Exc.Condition).serious = true) ∧
    Exc.Scm_VMThrowException
        { exceptionHandler := Exc.XHandler.user 3, escapePoint := [] }
        { cid := 7, serious := true } =
      ({ exceptionHandler := Exc.XHandler.dflt, escapePoint := [] },
       [Exc.ThrowStep.applyHandler 3 { cid := 7, serious := true },
        Exc.ThrowStep.raiseError Exc.nonContinuableMsg]) :=
  ⟨rfl, rfl,
   ((c3_throw_exception
       { exceptionHandler := Exc.XHandler.user 3, escapePoint := [] }
       { cid := 7, serious := true }).1 3 rfl).1 rfl⟩

/-- C1: after `save_cont` (the promotion part of save-stack) completes on a
well-formed continuation chain, no continuation frame reachable from the
`cont` register lies in the value stack; and every external holder of a
continuation pointer — the `cont` register, each host-stack record's
`cont`, each escape point's `cont` on the main and the floating chain —
that referred to a frame of the promoted (now forwarded) in-stack chain has
been replaced by that frame's heap copy, which carries the original frame's
contents.  The subsequent compaction step (`CompactModel.save_stack`)
rewrites only raw stack words and none of these holders, so the property
stated here is the property after save-stack completes. -/
theorem c1_save_cont_promotes (vm : StackModel.VMC) (as : List Nat) (t : StackModel.CPtr)
    (hchain : StackModel.chainSpecB vm.mem vm.cont as t = true)
    (hnd : as.Nodup)
    (hclosed : StackModel.heapClosedB vm.mem = true) :
    (∀ fuel q, q ∈ StackModel.contTrace (StackModel.save_cont vm).mem fuel
        (StackModel.save_cont vm).cont → StackModel.isStackB q = false) ∧
    (∀ i a f, as[i]? = some a → vm.mem.lookupStack a = some f →
       ((StackModel.save_cont vm).mem.heap[vm.mem.heap.length + i]? =
          some { f with prev := if i + 1 < as.length
                 then StackModel.CPtr.heap (vm.mem.heap.length + i + 1) else t }) ∧
       (vm.cont = StackModel.CPtr.stack a →
          (StackModel.save_cont vm).cont =
            StackModel.CPtr.heap (vm.mem.heap.length + i)) ∧
       (∀ j : Nat, vm.cstackConts[j]? = some (StackModel.CPtr.stack a) →
          (StackModel.save_cont vm).cstackConts[j]? =
            some (StackModel.CPtr.heap (vm.mem.heap.length + i))) ∧
       (∀ j : Nat, vm.epConts[j]? = some (StackModel.CPtr.stack a) →
          (StackModel.save_cont vm).epConts[j]? =
            some (StackModel.CPtr.heap (vm.mem.heap.length + i))) ∧
       (∀ j : Nat, vm.floatingConts[j]? = some (StackModel.CPtr.stack a) →
          (StackModel.save_cont vm).floatingConts[j]? =
            some (StackModel.CPtr.heap (vm.mem.heap.length + i)))) := by
  cases hvc : vm.cont with
  | null =>
    have hs : StackModel.save_cont vm = vm := by
      simp only [StackModel.save_cont, hvc]
    have hase : as = [] := by
      cases has : as with
      | nil => rfl
      | cons a rest =>
        rw [hvc, has, StackModel.chainSpecB, Bool.and_eq_true] at hchain
        obtain ⟨hc1, _⟩ := hchain
        simp at hc1
    subst hase
    constructor
    · intro fuel q hq
      rw [hs] at hq
      exact StackModel.contTrace_no_stack vm.mem hclosed fuel vm.cont
        (by rw [hvc]; rfl) q hq
    · intro i a f hia _
      simp at hia
  | heap h0 =>
    have hs : StackModel.save_cont vm = vm := by
      simp only [StackModel.save_cont, hvc]
    have hase : as = [] := by
      cases has : as with
      | nil => rfl
      | cons a rest =>
        rw [hvc, has, StackModel.chainSpecB, Bool.and_eq_true] at hchain
        obtain ⟨hc1, _⟩ := hchain
        simp at hc1
    subst hase
    constructor
    · intro fuel q hq
      rw [hs] at hq
      exact StackModel.contTrace_no_stack vm.mem hclosed fuel vm.cont
        (by rw [hvc]; rfl) q hq
    · intro i a f hia _
      simp at hia
  | stack a0 =>
    rw [hvc] at hchain
    have hfuel : as.length ≤ vm.mem.stack.length + 1 := by
      have := StackModel.chainSpecB_length_le as vm.mem (StackModel.CPtr.stack a0) t
        hchain hnd
      omega
    obtain ⟨sp1, sp2, sp3, sp4, sp5, sp6, sp7⟩ :=
      StackModel.save_cont_pass1_spec as vm.mem (StackModel.CPtr.stack a0) t none
        (vm.mem.stack.length + 1) hchain hnd hfuel (by simp)
    have hclosed2 : StackModel.heapClosedB
        (StackModel.save_cont_pass1 (vm.mem.stack.length + 1)
          (StackModel.CPtr.stack a0) none vm.mem) = true :=
      StackModel.pass1_heapClosed as vm.mem (StackModel.CPtr.stack a0) t _
        hchain hnd hfuel hclosed
    simp only [StackModel.save_cont, hvc]
    set M := StackModel.save_cont_pass1 (vm.mem.stack.length + 1)
      (StackModel.CPtr.stack a0) none vm.mem with hM
    have hfix : ∀ i a f, as[i]? = some a → vm.mem.lookupStack a = some f →
        StackModel.fix_cont_ptr M (StackModel.CPtr.stack a) =
          StackModel.CPtr.heap (vm.mem.heap.length + i) := by
      intro i a f hia hf
      have h5 := sp5 i a f hia hf
      rw [StackModel.fix_cont_ptr]
      have hP : StackModel.FORWARDED_CONT_P M (StackModel.CPtr.stack a) = true := by
        show (match M.lookupStack a with
              | some g => g.size == (-1 : Int)
              | none => false) = true
        rw [h5]
        rfl
      rw [if_pos hP]
      show (match M.lookupStack a with
            | some g => g.prev
            | none => StackModel.CPtr.stack a) =
        StackModel.CPtr.heap (vm.mem.heap.length + i)
      rw [h5]
    obtain ⟨rest, hasr⟩ : ∃ rest, as = a0 :: rest := by
      cases has : as with
      | nil =>
        rw [has, StackModel.chainSpecB, Bool.and_eq_true, beq_iff_eq] at hchain
        obtain ⟨h1, h2⟩ := hchain
        rw [← h1] at h2
        simp [StackModel.isStackB] at h2
      | cons a rest =>
        rw [has, StackModel.chainSpecB, Bool.and_eq_true, beq_iff_eq] at hchain
        obtain ⟨h1, _⟩ := hchain
        injection h1 with h1
        exact ⟨rest, by rw [h1]⟩
    have has0 : as[0]? = some a0 := by rw [hasr]; simp
    obtain ⟨f0, hf0⟩ := StackModel.chainSpecB_lookup as vm.mem
      (StackModel.CPtr.stack a0) t hchain a0 (by rw [hasr]; exact List.mem_cons_self _ _)
    constructor
    · intro fuel q hq
      have hstart : StackModel.isStackB
          (StackModel.fix_cont_ptr M (StackModel.CPtr.stack a0)) = false := by
        rw [hfix 0 a0 f0 has0 hf0]
        rfl
      exact StackModel.contTrace_no_stack M hclosed2 fuel _ hstart q hq
    · intro i a f hia hf
      refine ⟨sp2 i a f hia hf, ?_, ?_, ?_, ?_⟩
      · intro hva
        injection hva with hva
        rw [hva]
        exact hfix i a f hia hf
      · intro j hj
        rw [List.getElem?_map, hj, Option.map_some', hfix i a f hia hf]
      · intro j hj
        rw [List.getElem?_map, hj, Option.map_some', hfix i a f hia hf]
      · intro j hj
        rw [List.getElem?_map, hj, Option.map_some', hfix i a f hia hf]

/-- Witness for `c1_save_cont_promotes`: a two-frame in-stack chain with a
host-stack record holding the inner frame and a floating escape point
holding the outer one; after `save_cont` all three holders point at the
heap copies. -/
theorem c1_save_cont_promotes_witness :
    (StackModel.chainSpecB
        (⟨StackModel.CPtr.stack 0, [StackModel.CPtr.stack 1], [],
          [StackModel.CPtr.stack 0],
          ⟨[(0, ⟨StackModel.CPtr.stack 1, 2, [10]⟩),
            (1, ⟨StackModel.CPtr.null, 0, []⟩)], []⟩⟩ : StackModel.VMC).mem
        (StackModel.CPtr.stack 0) [0, 1] StackModel.CPtr.null = true) ∧
    ([0, 1] : List Nat).Nodup ∧
    (StackModel.heapClosedB
        (⟨StackModel.CPtr.stack 0, [StackModel.CPtr.stack 1], [],
          [StackModel.CPtr.stack 0],
          ⟨[(0, ⟨StackModel.CPtr.stack 1, 2, [10]⟩),
            (1, ⟨StackModel.CPtr.null, 0, []⟩)], []⟩⟩ : StackModel.VMC).mem = true) ∧
    ((StackModel.save_cont
        (⟨StackModel.CPtr.stack 0, [StackModel.CPtr.stack 1], [],
          [StackModel.CPtr.stack 0],
          ⟨[(0, ⟨StackModel.CPtr.stack 1, 2, [10]⟩),
            (1, ⟨StackModel.CPtr.null, 0, []⟩)], []⟩⟩ : StackModel.VMC)).cont =
      StackModel.CPtr.heap 0) ∧
    ((StackModel.save_cont
        (⟨StackModel.CPtr.stack 0, [StackModel.CPtr.stack 1], [],
          [StackModel.CPtr.stack 0],
          ⟨[(0, ⟨StackModel.CPtr.stack 1, 2, [10]⟩),
            (1, ⟨StackModel.CPtr.null, 0, []⟩)], []⟩⟩ : StackModel.VMC)).cstackConts[0]? =
      some (StackModel.CPtr.heap 1)) ∧
    ((StackModel.save_cont
        (⟨StackModel.CPtr.stack 0, [StackModel.CPtr.stack 1], [],
          [StackModel.CPtr.stack 0],
          ⟨[(0, ⟨StackModel.CPtr.stack 1, 2, [10]⟩),
            (1, ⟨StackModel.CPtr.null, 0, []⟩)], []⟩⟩ : StackModel.VMC)).floatingConts[0]? =
      some (StackModel.CPtr.heap 0)) :=
  ⟨by decide, by decide, by decide,
   ((c1_save_cont_promotes
       ⟨StackModel.CPtr.stack 0, [StackModel.CPtr.stack 1], [],
         [StackModel.CPtr.stack 0],
         ⟨[(0, ⟨StackModel.CPtr.stack 1, 2, [10]⟩),
           (1, ⟨StackModel.CPtr.null, 0, []⟩)], []⟩⟩ [0, 1] StackModel.CPtr.null
       (by decide) (by decide) (by decide)).2 0 0
     ⟨StackModel.CPtr.stack 1, 2, [10]⟩ (by decide) (by decide)).2.1 rfl,
   ((c1_save_cont_promotes
       ⟨StackModel.CPtr.stack 0, [StackModel.CPtr.stack 1], [],
         [StackModel.CPtr.stack 0],
         ⟨[(0, ⟨StackModel.CPtr.stack 1, 2, [10]⟩),
           (1, ⟨StackModel.CPtr.null, 0, []⟩)], []⟩⟩ [0, 1] StackModel.CPtr.null
       (by decide) (by decide) (by decide)).2 1 1
     ⟨StackModel.CPtr.null, 0, []⟩ (by decide) (by decide)).2.2.1 0 (by decide),
   ((c1_save_cont_promotes
       ⟨StackModel.CPtr.stack 0, [StackModel.CPtr.stack 1], [],
         [StackModel.CPtr.stack 0],
         ⟨[(0, ⟨StackModel.CPtr.stack 1, 2, [10]⟩),
           (1, ⟨StackModel.CPtr.null, 0, []⟩)], []⟩⟩ [0, 1] StackModel.CPtr.null
       (by decide) (by decide) (by decide)).2 0 0
     ⟨StackModel.CPtr.stack 1, 2, [10]⟩ (by decide) (by decide)).2.2.2.2 0 (by decide)⟩

/-- C7: after the compaction step of `save_stack`, the words that lay
between `argp` and `sp` sit unchanged at the stack base, `argp` equals the
base, `sp` equals the base plus the block length, every cell from `sp` to
the stack end is NULL, and the registers `val0`, `vals[]`, `numVals`, `pc`
and `base` are untouched by the compaction. -/
theorem c7_save_stack_compaction (vm : CompactModel.WordVM)
    (h1 : vm.argp ≤ vm.sp) (h2 : vm.sp ≤ vm.words.length) :
    (∀ i, i < vm.sp - vm.argp →
       (CompactModel.save_stack vm).words[i]? = vm.words[vm.argp + i]?) ∧
    (CompactModel.save_stack vm).argp = 0 ∧
    (CompactModel.save_stack vm).sp = vm.sp - vm.argp ∧
    (CompactModel.save_stack vm).words.length = vm.words.length ∧
    (∀ j, (CompactModel.save_stack vm).sp ≤ j →
       j < (CompactModel.save_stack vm).words.length →
       (CompactModel.save_stack vm).words[j]? = some none) ∧
    (CompactModel.save_stack vm).val0 = vm.val0 ∧
    (CompactModel.save_stack vm).vals = vm.vals ∧
    (CompactModel.save_stack vm).numVals = vm.numVals ∧
    (CompactModel.save_stack vm).pc = vm.pc ∧
    (CompactModel.save_stack vm).base = vm.base := by
  have hblen : ((vm.words.drop vm.argp).take (vm.sp - vm.argp)).length =
      vm.sp - vm.argp := by
    rw [List.length_take, List.length_drop]
    omega
  have hwords : (CompactModel.save_stack vm).words =
      (vm.words.drop vm.argp).take (vm.sp - vm.argp) ++
        List.replicate (vm.words.length - (vm.sp - vm.argp)) none := rfl
  have hlen : (CompactModel.save_stack vm).words.length = vm.words.length := by
    rw [hwords, List.length_append, hblen, List.length_replicate]
    omega
  refine ⟨?_, rfl, rfl, hlen, ?_, rfl, rfl, rfl, rfl, rfl⟩
  · intro i hi
    rw [hwords, List.getElem?_append_left (by rw [hblen]; exact hi),
      List.getElem?_take, if_pos hi, List.getElem?_drop]
  · intro j hj1 hj2
    have hsp : (CompactModel.save_stack vm).sp = vm.sp - vm.argp := rfl
    rw [hsp] at hj1
    rw [hlen] at hj2
    rw [hwords, List.getElem?_append_right (by rw [hblen]; exact hj1), hblen,
      List.getElem?_replicate]
    rw [if_pos (by omega)]

/-- Witness for `c7_save_stack_compaction` at a concrete stack, selecting
the moved-block, pointer-reset and register conclusions. -/
theorem c7_save_stack_compaction_witness :
    (({ words := [some 5, some 6, some 7, some 8], argp := 1, sp := 3,
        val0 := 1, vals := [2], numVals := 1, pc := 4,
        base := 9 } : CompactModel.WordVM).argp ≤ 3) ∧
    ((3 : Nat) ≤ 4) ∧
    (∀ i, i < 3 - 1 →
       (CompactModel.save_stack
           { words := [some 5, some 6, some 7, some 8], argp := 1, sp := 3,
             val0 := 1, vals := [2], numVals := 1, pc := 4,
             base := 9 }).words[i]? =
         ([some 5, some 6, some 7, some 8] : List (Option Nat))[1 + i]?) ∧
    (CompactModel.save_stack
        { words := [some 5, some 6, some 7, some 8], argp := 1, sp := 3,
          val0 := 1, vals := [2], numVals := 1, pc := 4, base := 9 }).argp = 0 ∧
    (CompactModel.save_stack
        { words := [some 5, some 6, some 7, some 8], argp := 1, sp := 3,
          val0 := 1, vals := [2], numVals := 1, pc := 4, base := 9 }).sp = 3 - 1 ∧
    (CompactModel.save_stack
        { words := [some 5, some 6, some 7, some 8], argp := 1, sp := 3,
          val0 := 1, vals := [2], numVals := 1, pc := 4, base := 9 }).val0 = 1 :=
  ⟨by decide, by decide,
   (c7_save_stack_compaction
      { words := [some 5, some 6, some 7, some 8], argp := 1, sp := 3,
        val0 := 1, vals := [2], numVals := 1, pc := 4, base := 9 }
      (by decide) (by decide)).1,
   (c7_save_stack_compaction
      { words := [some 5, some 6, some 7, some 8], argp := 1, sp := 3,
        val0 := 1, vals := [2], numVals := 1, pc := 4, base := 9 }
      (by decide) (by decide)).2.1,
   (c7_save_stack_compaction
      { words := [some 5, some 6, some 7, some 8], argp := 1, sp := 3,
        val0 := 1, vals := [2], numVals := 1, pc := 4, base := 9 }
      (by decide) (by decide)).2.2.1,
   (c7_save_stack_compaction
      { words := [some 5, some 6, some 7, some 8], argp := 1, sp := 3,
        val0 := 1, vals := [2], numVals := 1, pc := 4, base := 9 }
      (by decide) (by decide)).2.2.2.2.2.1⟩

/-- C9: a recursive acquisition by the owning VM increments the count and
does not touch the internal fast lock; a release decrements the count,
never touches the internal lock, and clears the owner slot exactly when the
count reaches zero (keeping it otherwise). -/
theorem c9_port_lock_recursive (p : PortLock.Port) (vm : Nat) (termed : Nat → Bool)
    (hown : p.lockOwner = some vm) (hcnt : 1 ≤ p.lockCount) :
    PortLock.PORT_LOCK p vm termed =
      { port := { p with lockCount := p.lockCount + 1 }, usedInternalLock := false } ∧
    (PortLock.PORT_UNLOCK p).usedInternalLock = false ∧
    (PortLock.PORT_UNLOCK p).port.lockCount = p.lockCount - 1 ∧
    ((PortLock.PORT_UNLOCK p).port.lockOwner = none ↔ p.lockCount = 1) ∧
    (p.lockCount ≠ 1 → (PortLock.PORT_UNLOCK p).port.lockOwner = p.lockOwner) := by
  refine ⟨?_, rfl, rfl, ?_, ?_⟩
  · unfold PortLock.PORT_LOCK
    rw [hown]
    simp
  · unfold PortLock.PORT_UNLOCK
    constructor
    · intro h
      by_contra hne
      have h2 : ¬ (p.lockCount - 1 ≤ 0) := by omega
      simp [h2] at h
      rw [h] at hown
      exact Option.noConfusion hown
    · intro h
      simp [h]
  · intro h
    unfold PortLock.PORT_UNLOCK
    have h2 : ¬ (p.lockCount - 1 ≤ 0) := by omega
    simp [h2]

/-- Witness for `c9_port_lock_recursive` at a concrete port state. -/
theorem c9_port_lock_recursive_witness :
    ({ lockOwner := some 2, lockCount := 3 : PortLock.Port }.lockOwner = some 2) ∧
    (1 ≤ ({ lockOwner := some 2, lockCount := 3 : PortLock.Port }).lockCount) ∧
    (PortLock.PORT_LOCK { lockOwner := some 2, lockCount := 3 } 2 (fun _ => false) =
      { port := { lockOwner := some 2, lockCount := 4 }, usedInternalLock := false } ∧
     (PortLock.PORT_UNLOCK { lockOwner := some 2, lockCount := 3 }).usedInternalLock = false ∧
     (PortLock.PORT_UNLOCK { lockOwner := some 2, lockCount := 3 }).port.lockCount = 3 - 1 ∧
     ((PortLock.PORT_UNLOCK { lockOwner := some 2, lockCount := 3 }).port.lockOwner = none ↔
        (3 : Int) = 1) ∧
     ((3 : Int) ≠ 1 →
       (PortLock.PORT_UNLOCK { lockOwner := some 2, lockCount := 3 }).port.lockOwner =
         some 2)) :=
  ⟨rfl, by decide,
   c9_port_lock_recursive { lockOwner := some 2, lockCount := 3 } 2 (fun _ => false)
     rfl (by decide)⟩

/-- C10: zero values is representable at the public interface:
`Scm_VMValues` on the empty argument list sets `numVals` to 0 and returns
the unspecified value, and `Scm_VMGetResult` on a VM whose `numVals` is 0
returns the empty list — so `numVals = 1` is not an invariant. -/
theorem c10_zero_values (vm vm2 : Vals.VM) (h : vm2.numVals = 0) :
    Vals.Scm_VMValues vm [] = Except.ok ({ vm with numVals := 0 }, SCM_UNDEFINED) ∧
    ({ vm with numVals := 0 } : Vals.VM).numVals = 0 ∧
    ({ vm with numVals := 0 } : Vals.VM).numVals ≠ 1 ∧
    Vals.Scm_VMGetResult vm2 = [] := by
  refine ⟨rfl, rfl, by simp, ?_⟩
  unfold Vals.Scm_VMGetResult
  simp [h]

/-- Witness for `c10_zero_values` at a concrete VM state. -/
theorem c10_zero_values_witness :
    (({ val0 := 7, vals := fun _ => 0, numVals := 0 } : Vals.VM).numVals = 0) ∧
    (Vals.Scm_VMValues { val0 := 5, vals := fun _ => 0, numVals := 1 } [] =
       Except.ok ({ val0 := 5, vals := fun _ => 0, numVals := 0 }, SCM_UNDEFINED) ∧
     ({ val0 := 5, vals := fun _ => 0, numVals := 0 } : Vals.VM).numVals = 0 ∧
     ({ val0 := 5, vals := fun _ => 0, numVals := 0 } : Vals.VM).numVals ≠ 1 ∧
     Vals.Scm_VMGetResult { val0 := 7, vals := fun _ => 0, numVals := 0 } = []) :=
  ⟨rfl, c10_zero_values { val0 := 5, vals := fun _ => 0, numVals := 1 }
          { val0 := 7, vals := fun _ => 0, numVals := 0 } rfl⟩
